import Mathlib

/-!
Shallow embedding of the CSV ingestion-and-aggregation pipeline of the
`d-tomas/streamlit` dashboards (`stream_app.py`, `app_2.py`).

Raw CSV cells are modelled as `Option String` (`none` is an empty cell,
which the dataframe library reads as a missing value / NaN).  Numeric
coercion with failure-as-missing (`pd.to_numeric(..., errors="coerce")`)
is modelled by `parseNumeric`, a decimal-literal parser over the cell
text; floats are modelled as `Rat`.
-/

/-- Digit string to natural number; fails on a non-digit or on empty input. -/
def digitsVal (cs : List Char) : Option Nat :=
  if cs.isEmpty then none
  else
    cs.foldl
      (fun acc c =>
        acc.bind (fun n => if c.isDigit then some (10 * n + (c.toNat - 48)) else none))
      (some 0)

/-- Unsigned decimal literal: digits with an optional single decimal point,
at least one digit overall (accepts "5.", ".5", rejects ".", "", "abc"). -/
def parseUnsigned (cs : List Char) : Option Rat :=
  match cs.span (fun c => c ≠ '.') with
  | (intPart, []) => (digitsVal intPart).map (fun n => (n : Rat))
  | (intPart, _ :: fracPart) =>
    if fracPart.contains '.' then none
    else if intPart.isEmpty && fracPart.isEmpty then none
    else
      (if intPart.isEmpty then some 0 else digitsVal intPart).bind (fun i =>
        (if fracPart.isEmpty then some 0 else digitsVal fracPart).map (fun f =>
          (i : Rat) + (f : Rat) / ((10 : Rat) ^ fracPart.length)))

/-- Strip leading and trailing spaces from a character list. -/
def stripSpaces (cs : List Char) : List Char :=
  ((cs.dropWhile (fun c => c = ' ')).reverse.dropWhile (fun c => c = ' ')).reverse

/-- Numeric coercion of one cell text, the semantics of
`pd.to_numeric(..., errors="coerce")` on a string: optional sign and a
decimal literal; `none` when coercion fails (the cell becomes NaN). -/
def parseNumeric (s : String) : Option Rat :=
  match stripSpaces s.toList with
  | '-' :: rest => (parseUnsigned rest).map (fun q => -q)
  | '+' :: rest => parseUnsigned rest
  | cs => parseUnsigned cs

/-- Numeric coercion of a raw cell: a missing cell stays missing (NaN),
text is parsed with `parseNumeric`. -/
def toNumeric (cell : Option String) : Option Rat :=
  cell.bind parseNumeric

/-- One row of the RawTable restricted to the three required columns
(`Platform`, `Year`, `Global_Sales`); `none` is an empty cell (NaN). -/
structure RawRow where
  platform : Option String
  year : Option String
  globalSales : Option String
deriving DecidableEq, Repr

/-- One row of the CleanTable: integer `Year`, present `Platform`,
numeric `Global_Sales`. -/
structure CleanRow where
  year : Int
  platform : String
  globalSales : Rat
deriving DecidableEq, Repr

/-- Truncation toward zero of a rational, the semantics of the
`astype(int)` cast applied to the coerced float `Year` column. -/
def truncToZero (q : Rat) : Int :=
  if 0 ≤ q.num then ((q.num.toNat / q.den : Nat) : Int)
  else -(((-q.num).toNat / q.den : Nat) : Int)

/-- Per-row action of `clean_df` (stream_app.py, lines 38-50): coerce
`Year` to numeric, drop the row when `Year`, `Platform` or `Global_Sales`
is missing, cast `Year` to int, coerce `Global_Sales` to numeric with
failed coercions filled with `0.0`. -/
def cleanRow (r : RawRow) : Option CleanRow :=
  match toNumeric r.year, r.platform, r.globalSales with
  | some y, some p, some g =>
      some { year := truncToZero y, platform := p, globalSales := (parseNumeric g).getD 0 }
  | _, _, _ => none

/-- The function `clean_df` (stream_app.py): row-wise cleaning over the parsed table. -/
def clean_df (rows : List RawRow) : List CleanRow :=
  rows.filterMap cleanRow

/-- Per-row action of the cleaning part of `load_data` (app_2.py, lines
27-32): coerce `Year`, drop rows only on missing `Year`, cast `Year` to
int, coerce `Global_Sales` with NaN (missing or failed) filled with `0`. -/
def loadDataRow (r : RawRow) : Option CleanRow :=
  match toNumeric r.year with
  | some y =>
      some { year := truncToZero y
             platform := (r.platform).getD ""
             globalSales := ((toNumeric r.globalSales)).getD 0 }
  | none => none

/-- Cleaning part of `load_data` (app_2.py): row-wise over the parsed table. -/
def load_data (rows : List RawRow) : List CleanRow :=
  rows.filterMap loadDataRow

/-- The year range and platform multiselection driving the dashboard
filter; an empty `platforms` list is the "no platform filter" state. -/
structure FilterSpec where
  yearLow : Int
  yearHigh : Int
  platforms : List String
deriving DecidableEq, Repr

/-- The filtered dataframe `fdf` (stream_app.py, lines 109-112): keep the
rows with `Year` in the inclusive slider range; then, only when the
platform multiselection is non-empty, keep the rows whose `Platform` is
selected. -/
def fdf (rows : List CleanRow) (spec : FilterSpec) : List CleanRow :=
  let byYear := rows.filter (fun r => spec.yearLow ≤ r.year && r.year ≤ spec.yearHigh)
  if spec.platforms.isEmpty then byYear
  else byYear.filter (fun r => spec.platforms.contains r.platform)

/-- Ascending lexicographic (codepoint) order on platform names, the
order in which the dataframe library sorts a string key column. -/
def strLe (a b : String) : Prop :=
  a.data ≤ b.data

/-- Strict version of `strLe`. -/
def strLt (a b : String) : Prop :=
  a.data < b.data

instance : DecidableRel strLe := fun a b => by
  unfold strLe; infer_instance

instance : DecidableRel strLt := fun a b => by
  unfold strLt; infer_instance

instance : IsTotal String strLe where
  total a b := le_total a.data b.data

instance : IsTrans String strLe where
  trans _ _ _ hab hbc := le_trans (α := List Char) hab hbc

theorem strLe_total (a b : String) : strLe a b ∨ strLe b a :=
  le_total a.data b.data

theorem strLt_of_strLe_of_ne {a b : String} (h : strLe a b) (hne : a ≠ b) : strLt a b := by
  cases a with
  | mk da =>
    cases b with
    | mk db =>
      exact lt_of_le_of_ne h (fun hdata => hne (congrArg String.mk hdata))

theorem strLt_trans {a b c : String} (h1 : strLt a b) (h2 : strLt b c) : strLt a c :=
  lt_trans (α := List Char) h1 h2

theorem strLt_irrefl (a : String) : ¬ strLt a a :=
  lt_irrefl a.data

theorem strLe_of_strLt {a b : String} (h : strLt a b) : strLe a b :=
  le_of_lt (α := List Char) h

theorem strLt_asymm {a b : String} (h : strLt a b) : ¬ strLt b a :=
  lt_asymm (a := a.data) h

/-- Sort key order of the two-dimensional group-by `[Year, Platform]`:
Year ascending, ties by Platform ascending. -/
def ypLe (a b : Int × String) : Prop :=
  a.1 < b.1 ∨ (a.1 = b.1 ∧ strLe a.2 b.2)

instance : DecidableRel ypLe := fun a b => by
  unfold ypLe; infer_instance

instance : IsTotal (Int × String) ypLe where
  total a b := by
    rcases lt_trichotomy a.1 b.1 with h | h | h
    · exact Or.inl (Or.inl h)
    · rcases strLe_total a.2 b.2 with h2 | h2
      · exact Or.inl (Or.inr ⟨h, h2⟩)
      · exact Or.inr (Or.inr ⟨h.symm, h2⟩)
    · exact Or.inr (Or.inl h)

instance : IsTrans (Int × String) ypLe where
  trans a b c hab hbc := by
    rcases hab with h1 | ⟨h1, h1'⟩ <;> rcases hbc with h2 | ⟨h2, h2'⟩
    · exact Or.inl (h1.trans h2)
    · exact Or.inl (h2 ▸ h1)
    · exact Or.inl (h1 ▸ h2)
    · exact Or.inr ⟨h1.trans h2, Trans.trans h1' h2'⟩

/-- Sort key order of the two-dimensional group-by `[Platform, Year]`
used by `app_2.py`: Platform ascending, ties by Year ascending. -/
def pyLe (a b : String × Int) : Prop :=
  strLt a.1 b.1 ∨ (a.1 = b.1 ∧ a.2 ≤ b.2)

instance : DecidableRel pyLe := fun a b => by
  unfold pyLe; infer_instance

instance : IsTotal (String × Int) pyLe where
  total a b := by
    by_cases h : a.1 = b.1
    · rcases le_total a.2 b.2 with h2 | h2
      · exact Or.inl (Or.inr ⟨h, h2⟩)
      · exact Or.inr (Or.inr ⟨h.symm, h2⟩)
    · rcases strLe_total a.1 b.1 with h1 | h1
      · exact Or.inl (Or.inl (strLt_of_strLe_of_ne h1 h))
      · exact Or.inr (Or.inl (strLt_of_strLe_of_ne h1 (fun e => h e.symm)))

instance : IsTrans (String × Int) pyLe where
  trans a b c hab hbc := by
    rcases hab with h1 | ⟨h1, h1'⟩ <;> rcases hbc with h2 | ⟨h2, h2'⟩
    · exact Or.inl (strLt_trans h1 h2)
    · exact Or.inl (h2 ▸ h1)
    · exact Or.inl (h1 ▸ h2)
    · exact Or.inr ⟨h1.trans h2, h1'.trans h2'⟩

/-- Comparison by total used to model `sort_values("Global_Sales", ...)`:
the ascending argsort order that pandas computes first; the descending
result is its reversal. -/
def totLe (a b : String × Rat) : Prop :=
  a.2 ≤ b.2

instance : DecidableRel totLe := fun a b => by
  unfold totLe; infer_instance

instance : IsTotal (String × Rat) totLe where
  total a b := le_total a.2 b.2

instance : IsTrans (String × Rat) totLe where
  trans _ _ _ hab hbc := hab.trans hbc

/-- Sum of the `Global_Sales` measure over one Platform group. -/
def sumSalesPlatform (rows : List CleanRow) (p : String) : Rat :=
  ((rows.filter (fun r => r.platform == p)).map CleanRow.globalSales).sum

/-- Group keys of `groupby("Platform")`: the distinct platform values,
sorted ascending (the group-by sorts its keys). -/
def platformKeys (rows : List CleanRow) : List String :=
  List.insertionSort strLe ((rows.map CleanRow.platform).dedup)

/-- The series `groupby("Platform", as_index=False)["Global_Sales"].sum()`:
one row per distinct platform, keys ascending, measure summed. -/
def groupSumPlatform (rows : List CleanRow) : List (String × Rat) :=
  (platformKeys rows).map (fun p => (p, sumSalesPlatform rows p))

/-- The table `ranking` (app_2.py, lines 99-103) and the intermediate
series of `top_platforms`: the platform group sums sorted by total
descending.  `sort_values(..., ascending=False)` computes an ascending
argsort and reverses that indexer (pandas `nargsort`), so the descending
result is the reversal of the ascending sort; the ascending order on
ties, unspecified for the default sort kind, is determinized as stable. -/
def ranking (rows : List CleanRow) : List (String × Rat) :=
  (List.insertionSort totLe (groupSumPlatform rows)).reverse

/-- The spec's `rank` operation: `ranking` cut to at most `limit` entries
(the `head(limit)` of the sorted group sums). -/
def rank (rows : List CleanRow) (limit : Nat) : List (String × Rat) :=
  (ranking rows).take limit

/-- The function `top_platforms` (stream_app.py, lines 52-54): the platform names of
the descending-sorted group sums, first `n` of them. -/
def top_platforms (rows : List CleanRow) (n : Nat) : List String :=
  ((ranking rows).map Prod.fst).take n

/-- Sum of the `Global_Sales` measure over one Year group. -/
def sumSalesYear (rows : List CleanRow) (y : Int) : Rat :=
  ((rows.filter (fun r => r.year == y)).map CleanRow.globalSales).sum

/-- Group keys of `groupby("Year")`: distinct years sorted ascending. -/
def yearKeys (rows : List CleanRow) : List Int :=
  List.insertionSort (fun a b => a ≤ b) ((rows.map CleanRow.year).dedup)

/-- The table `by_year` (stream_app.py, lines 121-125): group by `Year`, sum
`Global_Sales`, sort by `Year` ascending. -/
def by_year (rows : List CleanRow) : List (Int × Rat) :=
  (yearKeys rows).map (fun y => (y, sumSalesYear rows y))

/-- Sum of the `Global_Sales` measure over one (Year, Platform) group. -/
def sumSalesYP (rows : List CleanRow) (y : Int) (p : String) : Rat :=
  ((rows.filter (fun r => r.year == y && r.platform == p)).map CleanRow.globalSales).sum

/-- Group keys of `groupby(["Year", "Platform"])`: the distinct
(year, platform) pairs present, sorted lexicographically ascending. -/
def ypKeys (rows : List CleanRow) : List (Int × String) :=
  List.insertionSort ypLe ((rows.map (fun r => (r.year, r.platform))).dedup)

/-- The table `by_year_platform` (stream_app.py, lines 127-131): group by
`[Year, Platform]`, sum `Global_Sales`, sort by `[Year, Platform]`. -/
def by_year_platform (rows : List CleanRow) : List (Int × String × Rat) :=
  (ypKeys rows).map (fun k => (k.1, k.2, sumSalesYP rows k.1 k.2))

/-- Group keys of `groupby(["Platform", "Year"])` (app_2.py): the
distinct (platform, year) pairs present, sorted ascending. -/
def pyKeys (rows : List CleanRow) : List (String × Int) :=
  List.insertionSort pyLe ((rows.map (fun r => (r.platform, r.year))).dedup)

/-- The table `agg` (app_2.py, lines 73-77): group by `[Platform, Year]`, sum
`Global_Sales` (renamed for display); input of the pivot. -/
def agg_platform_year (rows : List CleanRow) : List (String × Int × Rat) :=
  (pyKeys rows).map (fun k => (k.1, k.2, sumSalesYP rows k.2 k.1))

/-- Column labels of `pivot_table(index="Year", columns="Platform")`:
the distinct platforms seen in the aggregation, sorted ascending. -/
def pivotColumns (a : List (String × Int × Rat)) : List String :=
  List.insertionSort strLe ((a.map Prod.fst).dedup)

/-- One cell of the pivot: the `aggfunc="sum"` total of the aggregation
entries carrying this (year, platform) key, `fill_value=0` when none. -/
def pivotCell (a : List (String × Int × Rat)) (y : Int) (p : String) : Rat :=
  ((a.filter (fun e => e.1 == p && e.2.1 == y)).map (fun e => e.2.2)).sum

/-- Sum of all cells of one pivot row (one year across every column). -/
def pivotRowSum (a : List (String × Int × Rat)) (y : Int) : Rat :=
  ((pivotColumns a).map (fun p => pivotCell a y p)).sum

/-- A parsed CSV: its column labels and its rows (restricted to the
three required columns). -/
structure ParsedCsv where
  columns : List String
  rows : List RawRow
deriving DecidableEq, Repr

/-- Outcomes of the three `pd.read_csv` attempts of `load_csv`
(stream_app.py, lines 14-31): `none` means the attempt raised. -/
structure CsvAttempts where
  utf8 : Option ParsedCsv
  latin1 : Option ParsedCsv
  noEncoding : Option ParsedCsv
deriving DecidableEq, Repr

/-- The function `load_csv` (stream_app.py): try UTF-8, then Latin-1, then a last
attempt with no explicit encoding; `none` means every attempt raised
(the uncaught exception is the ParseError). -/
def load_csv (a : CsvAttempts) : Option ParsedCsv :=
  match a.utf8 with
  | some t => some t
  | none =>
    match a.latin1 with
    | some t => some t
    | none => a.noEncoding

/-- The function `ensure_columns` (stream_app.py, lines 33-36): the required columns
missing from the table (displayed sorted). -/
def ensure_columns (cols : List String) : List String :=
  (["Global_Sales", "Platform", "Year"]).filter (fun c => !(cols.contains c))

/-- Terminal condition of one dashboard interaction. -/
inductive Outcome where
  | parseError
  | schemaError (missing : List String)
  | emptyCleanWarning
  | emptyFilterWarning
  | ok (table : List CleanRow)
deriving DecidableEq, Repr

/-- The dashboard driver after a successful parse (stream_app.py,
lines 73-116): schema check, clean, empty check (warning), filter,
empty check (warning), else proceed to the charts with `fdf`. -/
def run_dashboard (csv : ParsedCsv) (spec : FilterSpec) : Outcome :=
  if !(ensure_columns csv.columns).isEmpty then
    Outcome.schemaError (ensure_columns csv.columns)
  else
    let cleaned := clean_df csv.rows
    if cleaned.isEmpty then Outcome.emptyCleanWarning
    else
      let f := fdf cleaned spec
      if f.isEmpty then Outcome.emptyFilterWarning
      else Outcome.ok f

/-- One full interaction: parse (with encoding fallback), then the
driver; a parse with no successful attempt is the ParseError. -/
def pipeline (a : CsvAttempts) (spec : FilterSpec) : Outcome :=
  match load_csv a with
  | none => Outcome.parseError
  | some csv => run_dashboard csv spec

/-! ### General lemmas about the cleaning step -/

theorem cleanRow_eq_none_of_year {r : RawRow} (h : toNumeric r.year = none) :
    cleanRow r = none := by
  unfold cleanRow
  rw [h]

theorem cleanRow_eq_some {r : RawRow} {q : Rat} {p g : String}
    (hy : toNumeric r.year = some q) (hp : r.platform = some p)
    (hg : r.globalSales = some g) :
    cleanRow r = some ⟨truncToZero q, p, (parseNumeric g).getD 0⟩ := by
  unfold cleanRow
  rw [hy, hp, hg]

theorem cleanRow_eq_none_of_platform {r : RawRow} (h : r.platform = none) :
    cleanRow r = none := by
  unfold cleanRow
  rw [h]
  rcases toNumeric r.year with _ | _ <;> rfl

theorem cleanRow_eq_none_of_sales {r : RawRow} (h : r.globalSales = none) :
    cleanRow r = none := by
  unfold cleanRow
  rw [h]
  rcases toNumeric r.year with _ | _ <;> rcases r.platform with _ | _ <;> rfl

theorem cleanRow_inv {r : RawRow} {c : CleanRow} (h : cleanRow r = some c) :
    ∃ q p g, toNumeric r.year = some q ∧ r.platform = some p ∧ r.globalSales = some g ∧
      c = ⟨truncToZero q, p, (parseNumeric g).getD 0⟩ := by
  unfold cleanRow at h
  rcases hy : toNumeric r.year with _ | q <;> rw [hy] at h
  · exact absurd h (by simp)
  rcases hp : r.platform with _ | p <;> rw [hp] at h
  · exact absurd h (by simp)
  rcases hg : r.globalSales with _ | g <;> rw [hg] at h
  · exact absurd h (by simp)
  exact ⟨q, p, g, rfl, rfl, rfl, (Option.some_injective _ h).symm⟩

/-! ### Truncation toward zero -/

theorem truncToZero_of_nonneg {q : Rat} (h : 0 ≤ q) : truncToZero q = ⌊q⌋ := by
  have hnum : 0 ≤ q.num := Rat.num_nonneg.mpr h
  rw [truncToZero, if_pos hnum, Rat.floor_def]
  rw [Int.ofNat_ediv]
  rw [Int.toNat_of_nonneg hnum]

theorem truncToZero_of_neg {q : Rat} (h : q < 0) : truncToZero q = ⌈q⌉ := by
  have hnum : q.num < 0 := Rat.num_neg.mpr h
  have hneg : (0 : Rat) ≤ -q := by linarith
  have hfloor : ⌊-q⌋ = truncToZero (-q) := (truncToZero_of_nonneg hneg).symm
  have htz : truncToZero (-q) = ((((-q).num.toNat / (-q).den : Nat)) : Int) := by
    rw [truncToZero, if_pos (Rat.num_nonneg.mpr hneg)]
  have hceil : ⌈q⌉ = -⌊-q⌋ := by
    rw [Int.floor_neg]
    ring
  rw [hceil, hfloor, htz, Rat.neg_num, Rat.neg_den]
  rw [truncToZero, if_neg (by omega)]

/-! ### The concrete sample table of the spec's scenario -/

/-- The spec's concrete scenario input
`[("Wii","2006",82.74), ("NES","1985",40.24), ("Wii","2009",15.0)]`
with columns `Platform, Year, Global_Sales`. -/
def sampleRaw : List RawRow :=
  [⟨some "Wii", some "2006", some "82.74"⟩,
   ⟨some "NES", some "1985", some "40.24"⟩,
   ⟨some "Wii", some "2009", some "15.0"⟩]

/-! ### C1: asymmetric coercion policy of `clean` -/

/-- C1: `clean` drops a whole row when `Year` fails numeric coercion, but
keeps the row with the cell zero-filled when `Global_Sales` (present as
text) fails numeric coercion; concretely a row with `Year="abc"` does not
appear in the CleanTable while a row with `Global_Sales="abc"` appears
with `Global_Sales=0.0`. -/
theorem spec_C1 :
    (∀ r : RawRow, toNumeric r.year = none → cleanRow r = none) ∧
    (∀ (r : RawRow) (q : Rat) (p g : String),
        toNumeric r.year = some q → r.platform = some p → r.globalSales = some g →
        parseNumeric g = none →
        cleanRow r = some ⟨truncToZero q, p, 0⟩) ∧
    clean_df [⟨some "Wii", some "abc", some "82.74"⟩] = [] ∧
    clean_df [⟨some "Wii", some "2006", some "abc"⟩] = [⟨2006, "Wii", 0⟩] := by
  refine ⟨fun r h => cleanRow_eq_none_of_year h, fun r q p g hy hp hg hbad => ?_, ?_, ?_⟩
  · rw [cleanRow_eq_some hy hp hg, hbad]
    rfl
  · rfl
  · with_unfolding_all rfl

/-- Witness for C1 at concrete rows. -/
theorem spec_C1_witness :
    cleanRow ⟨some "Wii", some "abc", some "82.74"⟩ = none ∧
    cleanRow ⟨some "Wii", some "2006", some "abc"⟩ =
      some ⟨truncToZero 2006, "Wii", 0⟩ :=
  ⟨spec_C1.1 ⟨some "Wii", some "abc", some "82.74"⟩ rfl,
   spec_C1.2.1 ⟨some "Wii", some "2006", some "abc"⟩ 2006 "Wii" "abc"
     (by with_unfolding_all rfl) rfl rfl rfl⟩

/-! ### C7: Year is truncated toward zero -/

/-- C7: for a row whose `Year` text coerces to a rational `q`, `clean`
stores `Year` as the integer truncation of `q` toward zero (the floor for
nonnegative values, the ceiling for negative ones — not rounding);
concretely `Year="2006.0"` cleans to `2006`, the malformed `"2006.7"`
truncates to `2006`, and the unparsable `""` drops the row. -/
theorem spec_C7 :
    (∀ (r : RawRow) (q : Rat) (p g : String),
        toNumeric r.year = some q → r.platform = some p → r.globalSales = some g →
        cleanRow r = some ⟨truncToZero q, p, (parseNumeric g).getD 0⟩) ∧
    (∀ q : Rat, 0 ≤ q → truncToZero q = ⌊q⌋) ∧
    (∀ q : Rat, q < 0 → truncToZero q = ⌈q⌉) ∧
    cleanRow ⟨some "Wii", some "2006.0", some "1.0"⟩ = some ⟨2006, "Wii", 1⟩ ∧
    cleanRow ⟨some "Wii", some "2006.7", some "1.0"⟩ = some ⟨2006, "Wii", 1⟩ ∧
    cleanRow ⟨some "Wii", some "", some "1.0"⟩ = none := by
  refine ⟨fun r q p g hy hp hg => cleanRow_eq_some hy hp hg,
    fun q h => truncToZero_of_nonneg h, fun q h => truncToZero_of_neg h, ?_, ?_, ?_⟩
  · with_unfolding_all rfl
  · with_unfolding_all rfl
  · rfl

/-- Witness for C7 at concrete inputs. -/
theorem spec_C7_witness :
    cleanRow ⟨some "NES", some "1985", some "40.24"⟩ =
      some ⟨truncToZero 1985, "NES", (parseNumeric "40.24").getD 0⟩ ∧
    truncToZero 1985 = ⌊(1985 : Rat)⌋ ∧
    truncToZero (-(7 : Rat)/2) = ⌈-(7 : Rat)/2⌉ :=
  ⟨spec_C7.1 ⟨some "NES", some "1985", some "40.24"⟩ 1985 "NES" "40.24"
     (by with_unfolding_all rfl) rfl rfl,
   spec_C7.2.1 1985 (by norm_num),
   spec_C7.2.2.1 (-(7 : Rat)/2) (by norm_num)⟩

/-! ### C10: missing Platform or Global_Sales cells drop the row -/

/-- C10: `clean` drops every row whose `Platform` or `Global_Sales` cell
is missing, before zero-filling; every retained row got its sales from a
present text cell, so the `0.0` fill applies only to non-empty sales text
that fails coercion, and a row with an empty `Global_Sales` cell is
deleted rather than zero-filled. -/
theorem spec_C10 :
    (∀ r : RawRow, r.platform = none → cleanRow r = none) ∧
    (∀ r : RawRow, r.globalSales = none → cleanRow r = none) ∧
    (∀ (r : RawRow) (c : CleanRow), cleanRow r = some c →
        ∃ g, r.globalSales = some g ∧ c.globalSales = (parseNumeric g).getD 0) ∧
    cleanRow ⟨some "Wii", some "2006", none⟩ = none := by
  refine ⟨fun r h => cleanRow_eq_none_of_platform h,
    fun r h => cleanRow_eq_none_of_sales h, fun r c h => ?_, rfl⟩
  obtain ⟨q, p, g, _, _, hg, hc⟩ := cleanRow_inv h
  exact ⟨g, hg, by rw [hc]⟩

/-- Witness for C10 at concrete rows. -/
theorem spec_C10_witness :
    cleanRow ⟨none, some "2006", some "1.0"⟩ = none ∧
    cleanRow ⟨some "Wii", some "2009", none⟩ = none ∧
    ∃ g, (⟨some "Wii", some "2006", some "abc"⟩ : RawRow).globalSales = some g ∧
      (⟨2006, "Wii", 0⟩ : CleanRow).globalSales = (parseNumeric g).getD 0 :=
  ⟨spec_C10.1 ⟨none, some "2006", some "1.0"⟩ rfl,
   spec_C10.2.1 ⟨some "Wii", some "2009", none⟩ rfl,
   spec_C10.2.2.1 ⟨some "Wii", some "2006", some "abc"⟩ ⟨2006, "Wii", 0⟩
     (by with_unfolding_all rfl)⟩

/-! ### C2: the year/platform filter -/

/-- C2: `fdf` retains exactly the rows whose `Year` lies in the inclusive
slider range and, when the platform selection is non-empty, whose
`Platform` is selected; an empty selection applies no platform filter;
the relative order of rows is preserved (a stable filter). -/
theorem spec_C2 (rows : List CleanRow) (spec : FilterSpec) :
    fdf rows spec = rows.filter (fun r =>
      (spec.yearLow ≤ r.year && r.year ≤ spec.yearHigh) &&
      (spec.platforms.isEmpty || spec.platforms.contains r.platform)) ∧
    (fdf rows spec).Sublist rows ∧
    ∀ r : CleanRow, r ∈ fdf rows spec ↔
      r ∈ rows ∧ spec.yearLow ≤ r.year ∧ r.year ≤ spec.yearHigh ∧
        (spec.platforms ≠ [] → r.platform ∈ spec.platforms) := by
  have hmain : fdf rows spec = rows.filter (fun r =>
      (spec.yearLow ≤ r.year && r.year ≤ spec.yearHigh) &&
      (spec.platforms.isEmpty || spec.platforms.contains r.platform)) := by
    unfold fdf
    cases hE : spec.platforms.isEmpty with
    | true =>
      rw [if_pos rfl]
      exact (List.filter_congr (fun r _ => by simp)).symm
    | false =>
      rw [if_neg (by simp)]
      rw [List.filter_filter]
      exact List.filter_congr (fun r _ => by simp [Bool.and_comm])
  refine ⟨hmain, hmain ▸ List.filter_sublist rows, fun r => ?_⟩
  rw [hmain, List.mem_filter]
  simp only [Bool.and_eq_true, decide_eq_true_eq, Bool.or_eq_true, List.isEmpty_iff,
    List.elem_iff]
  constructor
  · rintro ⟨hr, ⟨h1, h2⟩, h3⟩
    exact ⟨hr, h1, h2, fun hne => h3.resolve_left hne⟩
  · rintro ⟨hr, h1, h2, h3⟩
    by_cases hP : spec.platforms = []
    · exact ⟨hr, ⟨h1, h2⟩, Or.inl hP⟩
    · exact ⟨hr, ⟨h1, h2⟩, Or.inr (h3 hP)⟩

/-! ### C5: encoding fallback of `load_csv` -/

theorem run_dashboard_ne_parseError (csv : ParsedCsv) (spec : FilterSpec) :
    run_dashboard csv spec ≠ Outcome.parseError := by
  unfold run_dashboard
  split_ifs <;> simp
  split_ifs <;> simp

/-- C5: `load_csv` first tries UTF-8, then Latin-1, then one last attempt
with no explicit encoding; the first successful attempt's table is
returned, and the ParseError outcome occurs exactly when every attempt
fails. -/
theorem spec_C5 (a : CsvAttempts) :
    (∀ t, a.utf8 = some t → load_csv a = some t) ∧
    (∀ t, a.utf8 = none → a.latin1 = some t → load_csv a = some t) ∧
    (a.utf8 = none → a.latin1 = none → load_csv a = a.noEncoding) ∧
    (load_csv a = none ↔ a.utf8 = none ∧ a.latin1 = none ∧ a.noEncoding = none) ∧
    (∀ spec, pipeline a spec = Outcome.parseError ↔ load_csv a = none) := by
  obtain ⟨u, l, n⟩ := a
  refine ⟨?_, ?_, ?_, ?_, fun spec => ?_⟩
  · rintro t rfl
    rfl
  · rintro t rfl rfl
    rfl
  · rintro rfl rfl
    rfl
  · cases u <;> cases l <;> simp [load_csv]
  · unfold pipeline
    cases hcsv : load_csv ⟨u, l, n⟩ with
    | none => simp
    | some csv => simp [run_dashboard_ne_parseError csv spec]

/-- Witness for C5: a byte content whose UTF-8 attempt fails but whose
Latin-1 attempt succeeds is parsed by the Latin-1 strategy. -/
theorem spec_C5_witness :
    load_csv ⟨none, some ⟨["Platform", "Year", "Global_Sales"], []⟩, none⟩ =
      some ⟨["Platform", "Year", "Global_Sales"], []⟩ :=
  (spec_C5 ⟨none, some ⟨["Platform", "Year", "Global_Sales"], []⟩, none⟩).2.1
    ⟨["Platform", "Year", "Global_Sales"], []⟩ rfl rfl

/-! ### C9: empty results are warnings, not errors -/

/-- C9: with the schema intact, a cleaning or filtering result of zero
rows halts the interaction with a warning outcome that is distinct from
the parse and schema errors; an all-rows-fail-Year-coercion table cleans
to the empty table and is such a valid outcome. -/
theorem spec_C9 (csv : ParsedCsv) (spec : FilterSpec)
    (hcols : ensure_columns csv.columns = []) :
    ((∀ r ∈ csv.rows, toNumeric r.year = none) → clean_df csv.rows = []) ∧
    (clean_df csv.rows = [] →
       run_dashboard csv spec = Outcome.emptyCleanWarning ∧
       run_dashboard csv spec ≠ Outcome.parseError ∧
       ∀ m, run_dashboard csv spec ≠ Outcome.schemaError m) ∧
    (clean_df csv.rows ≠ [] → fdf (clean_df csv.rows) spec = [] →
       run_dashboard csv spec = Outcome.emptyFilterWarning ∧
       run_dashboard csv spec ≠ Outcome.parseError ∧
       ∀ m, run_dashboard csv spec ≠ Outcome.schemaError m) := by
  refine ⟨fun hall => ?_, fun hclean => ?_, fun hclean hfilter => ?_⟩
  · exact List.filterMap_eq_nil_iff.mpr (fun r hr => cleanRow_eq_none_of_year (hall r hr))
  · have hrun : run_dashboard csv spec = Outcome.emptyCleanWarning := by
      unfold run_dashboard
      rw [hcols]
      simp [hclean]
    rw [hrun]
    exact ⟨rfl, by simp, by simp⟩
  · have hrun : run_dashboard csv spec = Outcome.emptyFilterWarning := by
      unfold run_dashboard
      rw [hcols]
      simp [hclean, hfilter, List.isEmpty_iff]
    rw [hrun]
    exact ⟨rfl, by simp, by simp⟩

/-- Witness for C9: a table whose single row has `Year="abc"` cleans to
the empty table and ends the interaction in the empty-result warning. -/
theorem spec_C9_witness :
    clean_df [⟨some "Wii", some "abc", some "1.0"⟩] = [] ∧
    run_dashboard ⟨["Platform", "Year", "Global_Sales"],
        [⟨some "Wii", some "abc", some "1.0"⟩]⟩ ⟨2000, 2010, []⟩ =
      Outcome.emptyCleanWarning := by
  have h := spec_C9 ⟨["Platform", "Year", "Global_Sales"],
      [⟨some "Wii", some "abc", some "1.0"⟩]⟩ ⟨2000, 2010, []⟩ rfl
  exact ⟨h.1 (by decide), (h.2.1 (h.1 (by decide))).1⟩

/-! ### C8: the spec's concrete scenario -/

set_option maxRecDepth 4000 in
/-- C8: on the concrete rows `[("Wii","2006",82.74), ("NES","1985",40.24),
("Wii","2009",15.0)]`, `clean` keeps all three rows with integer years
2006, 1985, 2009; `aggregate` by Year yields 40.24 for 1985, 82.74 for
2006 and 15.0 for 2009; and `rank` by Platform yields
`[("Wii", 97.74), ("NES", 40.24)]`. -/
theorem spec_C8 :
    clean_df sampleRaw =
      [⟨2006, "Wii", 82.74⟩, ⟨1985, "NES", 40.24⟩, ⟨2009, "Wii", 15.0⟩] ∧
    by_year (clean_df sampleRaw) = [(1985, 40.24), (2006, 82.74), (2009, 15.0)] ∧
    rank (clean_df sampleRaw) 8 = [("Wii", 97.74), ("NES", 40.24)] := by
  refine ⟨?_, ?_, ?_⟩
  · with_unfolding_all rfl
  · with_unfolding_all rfl
  · with_unfolding_all rfl

/-! ### Sortedness and stability machinery for the rankings -/

theorem mem_insertionSort_iff {α : Type} (r : α → α → Prop) [DecidableRel r]
    {l : List α} {a : α} : a ∈ List.insertionSort r l ↔ a ∈ l :=
  (List.perm_insertionSort r l).mem_iff

theorem platformKeys_nodup (rows : List CleanRow) : (platformKeys rows).Nodup :=
  ((List.perm_insertionSort strLe _).nodup_iff).mpr (List.nodup_dedup _)

theorem mem_platformKeys {rows : List CleanRow} {p : String} :
    p ∈ platformKeys rows ↔ ∃ r ∈ rows, r.platform = p := by
  unfold platformKeys
  rw [mem_insertionSort_iff, List.mem_dedup, List.mem_map]

theorem platformKeys_strict (rows : List CleanRow) :
    (platformKeys rows).Pairwise strLt := by
  have h := (List.sorted_insertionSort strLe
      ((rows.map CleanRow.platform).dedup)).and (platformKeys_nodup rows)
  exact h.imp (fun hab => strLt_of_strLe_of_ne hab.1 hab.2)

theorem groupSumPlatform_names (rows : List CleanRow) :
    (groupSumPlatform rows).Pairwise (fun a b => strLt a.1 b.1) := by
  unfold groupSumPlatform
  rw [List.pairwise_map]
  exact platformKeys_strict rows

/-- Order of the ascending sorting stage: totals non-decreasing, ties in
ascending platform-name (group-by key) order, by stability. -/
def ascOrd (a b : String × Rat) : Prop :=
  a.2 ≤ b.2 ∧ (a.2 = b.2 → strLt a.1 b.1)

/-- Order delivered by the descending ranking: totals non-increasing,
and any two entries with equal totals in descending platform-name order
(the reversal of the group-by key order, since the descending sort is
the reversal of the ascending one). -/
def rankOrd (a b : String × Rat) : Prop :=
  b.2 ≤ a.2 ∧ (a.2 = b.2 → strLt b.1 a.1)

theorem orderedInsert_stable (x : String × Rat) :
    ∀ l : List (String × Rat), l.Pairwise ascOrd → (∀ b ∈ l, strLt x.1 b.1) →
      (List.orderedInsert totLe x l).Pairwise ascOrd := by
  intro l
  induction l with
  | nil =>
    intro _ _
    simp [ascOrd]
  | cons c l ih =>
    intro hl hx
    rw [List.pairwise_cons] at hl
    by_cases h : totLe x c
    · rw [List.orderedInsert_of_le (r := totLe) l h]
      refine List.pairwise_cons.mpr ⟨?_, List.pairwise_cons.mpr hl⟩
      intro b hb
      rcases List.mem_cons.mp hb with rfl | hb
      · exact ⟨h, fun _ => hx _ (List.mem_cons_self _ _)⟩
      · exact ⟨le_trans h (hl.1 b hb).1, fun _ => hx b (List.mem_cons_of_mem _ hb)⟩
    · have hlt : c.2 < x.2 := not_le.mp (fun hle => h hle)
      simp only [List.orderedInsert, if_neg h]
      refine List.pairwise_cons.mpr
        ⟨?_, ih hl.2 (fun b hb => hx b (List.mem_cons_of_mem c hb))⟩
      intro b hb
      rcases (List.mem_orderedInsert totLe).mp hb with rfl | hb
      · exact ⟨le_of_lt hlt, fun he => absurd he (ne_of_lt hlt)⟩
      · exact hl.1 b hb

theorem insertionSort_stable :
    ∀ l : List (String × Rat), l.Pairwise (fun a b => strLt a.1 b.1) →
      (List.insertionSort totLe l).Pairwise ascOrd := by
  intro l
  induction l with
  | nil =>
    intro _
    simp
  | cons x l ih =>
    intro hl
    rw [List.pairwise_cons] at hl
    show (List.orderedInsert totLe x (List.insertionSort totLe l)).Pairwise ascOrd
    refine orderedInsert_stable x _ (ih hl.2) ?_
    intro b hb
    exact hl.1 b ((List.perm_insertionSort totLe l).mem_iff.mp hb)

theorem ranking_pairwise (rows : List CleanRow) : (ranking rows).Pairwise rankOrd := by
  unfold ranking
  rw [List.pairwise_reverse]
  exact (insertionSort_stable _ (groupSumPlatform_names rows)).imp
    (fun hab => ⟨hab.1, fun he => hab.2 he.symm⟩)

/-! ### C3: ranking order, stability, and the length cut -/

/-- Counterexample for C3 as stated: two platforms with equal totals come
out of `rank` in the reverse of the first-encountered (ascending
group-by key) order, because the descending sort is the reversal of an
ascending argsort; the grouping order here is AAA before BBB, yet the
ranking places BBB first. -/
theorem spec_C3_counterexample :
    groupSumPlatform [⟨2000, "AAA", 1⟩, ⟨2000, "BBB", 1⟩] =
      [("AAA", 1), ("BBB", 1)] ∧
    rank [⟨2000, "AAA", 1⟩, ⟨2000, "BBB", 1⟩] 8 = [("BBB", 1), ("AAA", 1)] ∧
    rank [⟨2000, "AAA", 1⟩, ⟨2000, "BBB", 1⟩] 8 ≠
      groupSumPlatform [⟨2000, "AAA", 1⟩, ⟨2000, "BBB", 1⟩] := by
  refine ⟨?_, ?_, ?_⟩
  · with_unfolding_all rfl
  · with_unfolding_all rfl
  · with_unfolding_all decide

/-- C3 (amended): `rank` returns the per-platform totals in
non-increasing order of total; entries with equal totals appear in the
reverse of the first-encountered (ascending group-by key) order, i.e. in
descending platform-name order, because the descending sort reverses an
ascending argsort; at most `limit` entries come back, and when fewer
platform groups exist than `limit` the whole ranking is returned, not an
error. -/
theorem spec_C3 (rows : List CleanRow) (limit : Nat) :
    (rank rows limit).Pairwise rankOrd ∧
    (ranking rows).Perm (groupSumPlatform rows) ∧
    (rank rows limit).length = min limit (groupSumPlatform rows).length ∧
    ((groupSumPlatform rows).length ≤ limit → rank rows limit = ranking rows) := by
  have hperm : (ranking rows).Perm (groupSumPlatform rows) :=
    (List.reverse_perm _).trans (List.perm_insertionSort totLe (groupSumPlatform rows))
  have hlen : (ranking rows).length = (groupSumPlatform rows).length :=
    hperm.length_eq
  refine ⟨?_, hperm, ?_, fun hle => ?_⟩
  · exact List.Pairwise.sublist (List.take_sublist limit (ranking rows))
      (ranking_pairwise rows)
  · unfold rank
    rw [List.length_take, hlen]
  · unfold rank
    exact List.take_of_length_le (by rw [hlen]; exact hle)

set_option maxRecDepth 4000 in
/-- Witness for C3 on the sample table, where two platform groups exist
and the limit 8 exceeds the group count. -/
theorem spec_C3_witness :
    (rank (clean_df sampleRaw) 8).Pairwise rankOrd ∧
    rank (clean_df sampleRaw) 8 = ranking (clean_df sampleRaw) :=
  ⟨(spec_C3 (clean_df sampleRaw) 8).1,
   (spec_C3 (clean_df sampleRaw) 8).2.2.2 (by with_unfolding_all decide)⟩

/-! ### Key-list lemmas for the one- and two-dimensional group-bys -/

/-- Strict version of `ypLe`. -/
def ypLt (a b : Int × String) : Prop :=
  a.1 < b.1 ∨ (a.1 = b.1 ∧ strLt a.2 b.2)

theorem ypKeys_nodup (rows : List CleanRow) : (ypKeys rows).Nodup :=
  ((List.perm_insertionSort ypLe _).nodup_iff).mpr (List.nodup_dedup _)

theorem mem_ypKeys {rows : List CleanRow} {y : Int} {p : String} :
    (y, p) ∈ ypKeys rows ↔ ∃ r ∈ rows, r.year = y ∧ r.platform = p := by
  unfold ypKeys
  rw [mem_insertionSort_iff, List.mem_dedup, List.mem_map]
  constructor
  · rintro ⟨r, hr, heq⟩
    rw [Prod.mk.injEq] at heq
    exact ⟨r, hr, heq.1, heq.2⟩
  · rintro ⟨r, hr, h1, h2⟩
    exact ⟨r, hr, by rw [h1, h2]⟩

theorem ypKeys_strict (rows : List CleanRow) : (ypKeys rows).Pairwise ypLt := by
  have h1 : (ypKeys rows).Pairwise ypLe := List.sorted_insertionSort ypLe _
  have h := List.Pairwise.and h1 (ypKeys_nodup rows)
  refine h.imp (fun hab => ?_)
  obtain ⟨hle, hne⟩ := hab
  rcases hle with h1 | ⟨h1, h2⟩
  · exact Or.inl h1
  · refine Or.inr ⟨h1, strLt_of_strLe_of_ne h2 (fun he => hne ?_)⟩
    exact Prod.ext h1 he

theorem yearKeys_nodup (rows : List CleanRow) : (yearKeys rows).Nodup :=
  ((List.perm_insertionSort (fun a b => a ≤ b) _).nodup_iff).mpr (List.nodup_dedup _)

theorem mem_yearKeys {rows : List CleanRow} {y : Int} :
    y ∈ yearKeys rows ↔ ∃ r ∈ rows, r.year = y := by
  unfold yearKeys
  rw [mem_insertionSort_iff, List.mem_dedup, List.mem_map]

theorem yearKeys_strict (rows : List CleanRow) :
    (yearKeys rows).Pairwise (fun a b => a < b) := by
  have h1 : (yearKeys rows).Pairwise (fun a b => a ≤ b) :=
    List.sorted_insertionSort (fun a b => a ≤ b) _
  have h := List.Pairwise.and h1 (yearKeys_nodup rows)
  exact h.imp (fun hab => lt_of_le_of_ne hab.1 hab.2)

theorem pyKeys_nodup (rows : List CleanRow) : (pyKeys rows).Nodup :=
  ((List.perm_insertionSort pyLe _).nodup_iff).mpr (List.nodup_dedup _)

theorem mem_pyKeys {rows : List CleanRow} {p : String} {y : Int} :
    (p, y) ∈ pyKeys rows ↔ ∃ r ∈ rows, r.platform = p ∧ r.year = y := by
  unfold pyKeys
  rw [mem_insertionSort_iff, List.mem_dedup, List.mem_map]
  constructor
  · rintro ⟨r, hr, heq⟩
    rw [Prod.mk.injEq] at heq
    exact ⟨r, hr, heq.1, heq.2⟩
  · rintro ⟨r, hr, h1, h2⟩
    exact ⟨r, hr, by rw [h1, h2]⟩

/-! ### C6: the sorted group-by aggregations -/

/-- C6: the two-dimensional aggregation is sorted by Year ascending and,
within a year, by Platform ascending; an aggregation row exists exactly
for the (year, platform) groups with at least one data row (no zero rows
for empty groups), and carries the group's sum; the one-dimensional
aggregation is likewise Year-ascending with one row per inhabited year. -/
theorem spec_C6 (rows : List CleanRow) :
    ((by_year_platform rows).Pairwise (fun a b =>
        a.1 < b.1 ∨ (a.1 = b.1 ∧ strLt a.2.1 b.2.1))) ∧
    (∀ (y : Int) (p : String),
        ((y, p, sumSalesYP rows y p) ∈ by_year_platform rows ↔
          ∃ r ∈ rows, r.year = y ∧ r.platform = p)) ∧
    (∀ e ∈ by_year_platform rows, e.2.2 = sumSalesYP rows e.1 e.2.1) ∧
    ((by_year rows).Pairwise (fun a b => a.1 < b.1)) ∧
    (∀ y : Int, ((y, sumSalesYear rows y) ∈ by_year rows ↔ ∃ r ∈ rows, r.year = y)) := by
  refine ⟨?_, fun y p => ?_, fun e he => ?_, ?_, fun y => ?_⟩
  · unfold by_year_platform
    rw [List.pairwise_map]
    exact (ypKeys_strict rows).imp (fun hab => hab)
  · unfold by_year_platform
    rw [List.mem_map]
    constructor
    · rintro ⟨k, hk, heq⟩
      rw [Prod.mk.injEq, Prod.mk.injEq] at heq
      obtain ⟨h1, h2, _⟩ := heq
      rw [← h1, ← h2] at *
      exact mem_ypKeys.mp (by rwa [← Prod.mk.eta (p := k)] at hk)
    · intro hex
      exact ⟨(y, p), mem_ypKeys.mpr hex, rfl⟩
  · unfold by_year_platform at he
    obtain ⟨k, _, heq⟩ := List.mem_map.mp he
    rw [← heq]
  · unfold by_year
    rw [List.pairwise_map]
    exact (yearKeys_strict rows).imp (fun hab => hab)
  · unfold by_year
    rw [List.mem_map]
    constructor
    · rintro ⟨y', hy', heq⟩
      rw [Prod.mk.injEq] at heq
      rw [← heq.1]
      exact mem_yearKeys.mp hy'
    · intro hex
      exact ⟨y, mem_yearKeys.mpr hex, rfl⟩

set_option maxRecDepth 4000 in
/-- Witness for C6: the (1985, "NES") aggregation row of the sample table
carries the group sum 40.24. -/
theorem spec_C6_witness :
    ((1985 : Int), "NES", (40.24 : Rat)).2.2 =
      sumSalesYP (clean_df sampleRaw) ((1985 : Int), "NES", (40.24 : Rat)).1
        ((1985 : Int), "NES", (40.24 : Rat)).2.1 :=
  (spec_C6 (clean_df sampleRaw)).2.2.1 (1985, "NES", 40.24)
    (by with_unfolding_all decide)

/-! ### Sum decomposition lemmas for the pivot round-trip -/

theorem sumSalesYP_cons (r : CleanRow) (rows : List CleanRow) (y : Int) (p : String) :
    sumSalesYP (r :: rows) y p =
      if r.year = y ∧ r.platform = p then r.globalSales + sumSalesYP rows y p
      else sumSalesYP rows y p := by
  unfold sumSalesYP
  rw [List.filter_cons]
  by_cases h : r.year = y ∧ r.platform = p
  · rw [if_pos h, if_pos (by simp [h.1, h.2])]
    simp
  · have hb : ¬ ((r.year == y && r.platform == p) = true) := by
      simpa using h
    rw [if_neg h, if_neg hb]

theorem sumSalesYear_cons (r : CleanRow) (rows : List CleanRow) (y : Int) :
    sumSalesYear (r :: rows) y =
      if r.year = y then r.globalSales + sumSalesYear rows y
      else sumSalesYear rows y := by
  unfold sumSalesYear
  rw [List.filter_cons]
  by_cases h : r.year = y
  · rw [if_pos h, if_pos (by simp [h])]
    simp
  · have hb : ¬ ((r.year == y) = true) := by simpa using h
    rw [if_neg h, if_neg hb]

theorem map_sum_update {x : String} (c : Rat) (h : String → Rat) :
    ∀ P : List String, P.Nodup → x ∈ P →
      (P.map (fun p => if p = x then c + h p else h p)).sum = c + (P.map h).sum := by
  intro P
  induction P with
  | nil =>
    intro _ hx
    cases hx
  | cons a P ih =>
    intro hnd hx
    rw [List.nodup_cons] at hnd
    rcases List.mem_cons.mp hx with ha | hx
    · rw [List.map_cons, List.sum_cons, if_pos ha.symm]
      have hrest : P.map (fun p => if p = x then c + h p else h p) = P.map h :=
        List.map_congr_left (fun p hp =>
          if_neg (fun (he : p = x) => hnd.1 ((he.trans ha) ▸ hp)))
      rw [hrest, List.map_cons, List.sum_cons]
      ring
    · have hax : a ≠ x := fun he => hnd.1 ((he.symm ▸ hx) : a ∈ P)
      rw [List.map_cons, List.sum_cons, if_neg hax, ih hnd.2 hx,
        List.map_cons, List.sum_cons]
      ring

theorem sum_group_partition (y : Int) :
    ∀ (rows : List CleanRow) (P : List String), P.Nodup →
      (∀ r ∈ rows, r.year = y → r.platform ∈ P) →
      (P.map (fun p => sumSalesYP rows y p)).sum = sumSalesYear rows y := by
  intro rows
  induction rows with
  | nil =>
    intro P _ _
    have h1 : P.map (fun p => sumSalesYP [] y p) = P.map (fun _ => (0 : Rat)) :=
      List.map_congr_left (fun p _ => rfl)
    rw [h1]
    simp [sumSalesYear]
  | cons r rest ih =>
    intro P hnd hcov
    by_cases hy : r.year = y
    · have hmem : r.platform ∈ P := hcov r (List.mem_cons_self r rest) hy
      have h1 : P.map (fun p => sumSalesYP (r :: rest) y p) =
          P.map (fun p => if p = r.platform then r.globalSales + sumSalesYP rest y p
            else sumSalesYP rest y p) :=
        List.map_congr_left (fun p _ => by
          rw [sumSalesYP_cons]
          by_cases hpp : p = r.platform
          · rw [if_pos ⟨hy, hpp.symm⟩, if_pos hpp]
          · rw [if_neg (fun hand => hpp hand.2.symm), if_neg hpp])
      rw [h1, map_sum_update r.globalSales _ P hnd hmem,
        ih P hnd (fun r' hr' hy' => hcov r' (List.mem_cons_of_mem r hr') hy'),
        sumSalesYear_cons, if_pos hy]
    · have h1 : P.map (fun p => sumSalesYP (r :: rest) y p) =
          P.map (fun p => sumSalesYP rest y p) :=
        List.map_congr_left (fun p _ => by
          rw [sumSalesYP_cons, if_neg (fun hand => hy hand.1)])
      rw [h1, ih P hnd (fun r' hr' hy' => hcov r' (List.mem_cons_of_mem r hr') hy'),
        sumSalesYear_cons, if_neg hy]

theorem agg_filter_sum (rows : List CleanRow) (y : Int) (p : String) :
    ∀ keys : List (String × Int), keys.Nodup →
      (((keys.map (fun k => (k.1, k.2, sumSalesYP rows k.2 k.1))).filter
          (fun e => e.1 == p && e.2.1 == y)).map (fun e => e.2.2)).sum =
        if (p, y) ∈ keys then sumSalesYP rows y p else 0 := by
  intro keys
  induction keys with
  | nil =>
    intro _
    simp
  | cons k ks ih =>
    intro hnd
    rw [List.nodup_cons] at hnd
    rw [List.map_cons, List.filter_cons]
    by_cases hk : k = (p, y)
    · subst hk
      rw [if_pos (by simp), List.map_cons, List.sum_cons, ih hnd.2,
        if_neg hnd.1, if_pos (List.mem_cons_self _ _)]
      simp
    · have hcond : ¬ (((k.1, k.2, sumSalesYP rows k.2 k.1).1 == p &&
          (k.1, k.2, sumSalesYP rows k.2 k.1).2.1 == y) = true) := by
        simp only [Bool.and_eq_true, beq_iff_eq]
        rintro ⟨h1, h2⟩
        exact hk (Prod.ext h1 h2)
      rw [if_neg hcond, ih hnd.2]
      by_cases hm : (p, y) ∈ ks
      · rw [if_pos hm, if_pos (List.mem_cons_of_mem _ hm)]
      · rw [if_neg hm, if_neg (fun hmm =>
          hm ((List.mem_cons.mp hmm).resolve_left (fun he => hk he.symm)))]

theorem sumSalesYP_eq_zero {rows : List CleanRow} {y : Int} {p : String}
    (h : ∀ r ∈ rows, ¬ (r.year = y ∧ r.platform = p)) :
    sumSalesYP rows y p = 0 := by
  unfold sumSalesYP
  have hnil : rows.filter (fun r => r.year == y && r.platform == p) = [] := by
    rw [List.filter_eq_nil_iff]
    intro r hr
    simpa using h r hr
  rw [hnil]
  rfl

theorem pivotCell_agg (rows : List CleanRow) (y : Int) (p : String) :
    pivotCell (agg_platform_year rows) y p = sumSalesYP rows y p := by
  unfold pivotCell agg_platform_year
  rw [agg_filter_sum rows y p (pyKeys rows) (pyKeys_nodup rows)]
  by_cases h : (p, y) ∈ pyKeys rows
  · rw [if_pos h]
  · rw [if_neg h]
    refine (sumSalesYP_eq_zero (fun r hr hand => ?_)).symm
    exact h (mem_pyKeys.mpr ⟨r, hr, hand.2, hand.1⟩)

theorem pivotColumns_nodup (a : List (String × Int × Rat)) :
    (pivotColumns a).Nodup :=
  ((List.perm_insertionSort strLe _).nodup_iff).mpr (List.nodup_dedup _)

theorem mem_pivotColumns {a : List (String × Int × Rat)} {p : String} :
    p ∈ pivotColumns a ↔ ∃ e ∈ a, e.1 = p := by
  unfold pivotColumns
  rw [mem_insertionSort_iff, List.mem_dedup, List.mem_map]

theorem pivotColumns_agg_covers (rows : List CleanRow) :
    ∀ r ∈ rows, r.platform ∈ pivotColumns (agg_platform_year rows) := by
  intro r hr
  rw [mem_pivotColumns]
  refine ⟨(r.platform, r.year, sumSalesYP rows r.year r.platform), ?_, rfl⟩
  unfold agg_platform_year
  exact List.mem_map.mpr ⟨(r.platform, r.year), mem_pyKeys.mpr ⟨r, hr, rfl, rfl⟩, rfl⟩

/-! ### C4: the aggregate/pivot round-trip -/

/-- C4: pivoting the two-dimensional aggregation (years as rows,
platforms as columns, absent pairs filled with 0) round-trips with the
one-dimensional aggregation: for every year, the sum of all cells of
that year's pivot row equals the total that grouping only on Year
produces for the same filtered table. -/
theorem spec_C4 (rows : List CleanRow) :
    (∀ y : Int, pivotRowSum (agg_platform_year rows) y = sumSalesYear rows y) ∧
    (∀ (y : Int) (s : Rat), (y, s) ∈ by_year rows → s = sumSalesYear rows y) := by
  constructor
  · intro y
    unfold pivotRowSum
    have h1 : (pivotColumns (agg_platform_year rows)).map
          (fun p => pivotCell (agg_platform_year rows) y p) =
        (pivotColumns (agg_platform_year rows)).map (fun p => sumSalesYP rows y p) :=
      List.map_congr_left (fun p _ => pivotCell_agg rows y p)
    rw [h1]
    exact sum_group_partition y rows _ (pivotColumns_nodup _)
      (fun r hr _ => pivotColumns_agg_covers rows r hr)
  · intro y s hmem
    unfold by_year at hmem
    obtain ⟨y', _, heq⟩ := List.mem_map.mp hmem
    rw [Prod.mk.injEq] at heq
    rw [← heq.2, heq.1]

set_option maxRecDepth 4000 in
/-- Witness for C4 on the sample table at year 2006, and the 1985 row of
the one-dimensional aggregation. -/
theorem spec_C4_witness :
    pivotRowSum (agg_platform_year (clean_df sampleRaw)) 2006 =
      sumSalesYear (clean_df sampleRaw) 2006 ∧
    (40.24 : Rat) = sumSalesYear (clean_df sampleRaw) 1985 :=
  ⟨(spec_C4 (clean_df sampleRaw)).1 2006,
   (spec_C4 (clean_df sampleRaw)).2 1985 40.24 (by with_unfolding_all decide)⟩

set_option maxRecDepth 4000 in
/-- Witness for C2: on the sample table filtered to the year range
2006-2006 with an empty platform selection, the Wii 2006 row is retained. -/
theorem spec_C2_witness :
    (⟨2006, "Wii", (82.74 : Rat)⟩ : CleanRow) ∈
      fdf (clean_df sampleRaw) ⟨2006, 2006, []⟩ :=
  ((spec_C2 (clean_df sampleRaw) ⟨2006, 2006, []⟩).2.2 ⟨2006, "Wii", 82.74⟩).mpr
    ⟨by
        have h : clean_df sampleRaw =
            [⟨2006, "Wii", 82.74⟩, ⟨1985, "NES", 40.24⟩, ⟨2009, "Wii", 15.0⟩] := by
          with_unfolding_all rfl
        rw [h]
        exact List.mem_cons_self _ _,
      by decide, by decide, fun hne => absurd rfl hne⟩
